import Mathlib

/-
  Verification of the scaleGeom vector library (Vector.h, Vector.cpp, Core.h).

  Modelling conventions:
  * `Vector T n` embeds the C++ `scaleGeom::Vector<T, N>` (a `std::array` of N
    coordinates) as a function `Fin n → T`.
  * Floating-point coordinates (`float` / `double`) are modelled as exact
    rationals (for the decidable, Bool-returning operations) or reals (where
    `sqrt` is involved); rounding of IEEE arithmetic is outside the model.
  * `size_t` indices are `ℕ`; a C++ `int` argument that is converted to
    `size_t` at a call or comparison goes through `size_tOfInt`, the value
    conversion modulo 2^64 of the C++ standard (64-bit platform).
  * An operation that throws `std::out_of_range` is modelled as returning
    `none`; the receiver is untouched because the throw precedes any write.
-/

namespace scaleGeom

/-- The constant `TOLERANCE` from Core.h: `#define TOLERANCE 0.0000001`. -/
def TOLERANCE : ℚ := 1 / 10 ^ 7

/-- The helper `IsEqualD` from Core.h: `fabs(a - b) < TOLERANCE`. -/
def IsEqualD (a b : ℚ) : Bool := decide (|a - b| < TOLERANCE)

/-- The type `scaleGeom::Vector<T, N>`: a fixed array of `n` coordinates of type `T`. -/
abbrev Vector (T : Type) (n : ℕ) : Type := Fin n → T

/-- The member `Vector::operator==`: the loop returns `false` as soon as one coordinate
pair fails `IsEqualD`, and `true` when the loop completes. -/
def vecEq {n : ℕ} (v w : Vector ℚ n) : Bool :=
  (List.finRange n).all fun i => IsEqualD (v i) (w i)

/-- The member `Vector::operator!=`: `!(*this == _other)`. -/
def vecNe {n : ℕ} (v w : Vector ℚ n) : Bool := !(vecEq v w)

/-- The member `Vector::operator+`: component-wise sum into a fresh result array. -/
def vecAdd {T : Type} [Add T] {n : ℕ} (v w : Vector T n) : Vector T n :=
  fun i => v i + w i

/-- The member `Vector::operator-`: component-wise difference into a fresh result array. -/
def vecSub {T : Type} [Sub T] {n : ℕ} (v w : Vector T n) : Vector T n :=
  fun i => v i - w i

/-- The member `Vector::operator<`: returns `false` on the first index where
`coords[i] >= other.coords[i]`, `true` when the loop completes. -/
def vecLt {n : ℕ} (v w : Vector ℚ n) : Bool :=
  (List.finRange n).all fun i => decide (v i < w i)

/-- The member `Vector::operator>`: returns `false` on the first index where
`coords[i] <= other.coords[i]`, `true` when the loop completes. -/
def vecGt {n : ℕ} (v w : Vector ℚ n) : Bool :=
  (List.finRange n).all fun i => decide (w i < v i)

/-- The member `Vector::operator[]`: `if (_index >= dimension) throw std::out_of_range;
return coords[_index];`. The index parameter is `size_t`. -/
def get {T : Type} {n : ℕ} (v : Vector T n) (i : ℕ) : Option T :=
  if h : n ≤ i then none else some (v ⟨i, lt_of_not_le h⟩)

/-- The C++ value conversion of a (signed) integer to `size_t` on a 64-bit
platform: reduction modulo 2^64. -/
def size_tOfInt (j : ℤ) : ℕ := (j % 2 ^ 64).toNat

/-- The member `Vector::assign(int dim, value)`: `if (dim >= dimension) throw
std::out_of_range; coords[dim] = value;`. The comparison `dim >= dimension`
converts the `int` argument to `size_t`, and the array write updates exactly
one slot. The throw happens before the write, so a failed call leaves the
vector untouched (modelled by returning `none`). -/
def assign {T : Type} {n : ℕ} (v : Vector T n) (dim : ℤ) (value : T) :
    Option (Vector T n) :=
  if n ≤ size_tOfInt dim then none
  else some (fun j => if (j : ℕ) = size_tOfInt dim then value else v j)

/-- The free function `dotProduct`: the accumulation loop `dotProduct += v1[i] * v2[i]`. -/
def dotProduct {n : ℕ} (v w : Vector ℚ n) : ℚ :=
  (List.finRange n).foldl (fun acc i => acc + v i * w i) 0

/-- The free function `crossProduct3D` from Vector.cpp, with `X = 0`, `Y = 1`, `Z = 2`:
`x = v1[Y]*v2[Z] - v1[Z]*v2[Y]; y = v1[Z]*v2[X] - v1[X]*v2[Z];
z = v1[X]*v2[Y] - v1[Y]*v2[X]`. -/
def crossProduct3D (v w : Vector ℚ 3) : Vector ℚ 3 :=
  ![v 1 * w 2 - v 2 * w 1, v 2 * w 0 - v 0 * w 2, v 0 * w 1 - v 1 * w 0]

/-- The free function `scalarTripleProduct` from Vector.cpp:
`dotProduct(crossProduct3D(v1, v2), v3)`. -/
def scalarTripleProduct (v1 v2 v3 : Vector ℚ 3) : ℚ :=
  dotProduct (crossProduct3D v1 v2) v3

/-- The member `Vector::magnitude`: `result += coords[i] * coords[i]` then `sqrt(result)`,
for real-valued (float) coordinates. -/
noncomputable def magnitude {n : ℕ} (v : Vector ℝ n) : ℝ :=
  Real.sqrt ((List.finRange n).foldl (fun acc i => acc + v i * v i) 0)

/-- The member `Vector::normalize` for float coordinates: `float mag = magnitude();
coords[i] /= mag;` — the magnitude is computed once, before the loop. -/
noncomputable def normalize {n : ℕ} (v : Vector ℝ n) : Vector ℝ n :=
  fun i => v i / magnitude v

/-- The coordinates of an integer vector viewed as reals (the arithmetic
conversions applied when `Vector<int, N>` computes in `float`). -/
def intCast {n : ℕ} (v : Vector ℤ n) : Vector ℝ n := fun i => (v i : ℝ)

/-- The C++ float-to-int conversion applied by `coords[i] /= mag` when the
coordinate type is an integer type: truncation toward zero. -/
noncomputable def truncFloat (x : ℝ) : ℤ := if 0 ≤ x then ⌊x⌋ else ⌈x⌉

/-- The member `Vector::normalize` instantiated at an integer coordinate type:
`coords[i] /= mag` divides in `float` and truncates the quotient back into
the integer slot. -/
noncomputable def intNormalize {n : ℕ} (v : Vector ℤ n) : Vector ℤ n :=
  fun i => truncFloat ((v i : ℝ) / magnitude (intCast v))

/-- The member `Vector::operator==` instantiated at an integer coordinate type: the
coordinates are converted to `double` when passed to `IsEqualD` (exact for
32-bit integers). -/
def vecEqInt {n : ℕ} (v w : Vector ℤ n) : Bool :=
  (List.finRange n).all fun i => IsEqualD ((v i : ℚ)) ((w i : ℚ))

/- Helper lemmas relating the accumulation loops to `Finset` sums. -/

lemma foldl_add_eq {α β : Type} [AddCommMonoid α] (l : List β) (f : β → α)
    (c : α) : l.foldl (fun acc i => acc + f i) c = c + (l.map f).sum := by
  induction l generalizing c with
  | nil => simp
  | cons a t ih => simp [ih, add_assoc]

lemma dotProduct_eq {n : ℕ} (v w : Vector ℚ n) :
    dotProduct v w = ∑ i, v i * w i := by
  rw [dotProduct, foldl_add_eq, zero_add, ← Fin.sum_univ_def]

lemma magnitude_eq {n : ℕ} (v : Vector ℝ n) :
    magnitude v = Real.sqrt (∑ i, v i * v i) := by
  rw [magnitude, foldl_add_eq, zero_add, ← Fin.sum_univ_def]

lemma vecEq_true_iff {n : ℕ} (v w : Vector ℚ n) :
    vecEq v w = true ↔ ∀ i, |v i - w i| < TOLERANCE := by
  simp [vecEq, List.all_eq_true, IsEqualD, List.mem_finRange]

lemma vecEq_false_iff {n : ℕ} (v w : Vector ℚ n) :
    vecEq v w = false ↔ ¬ ∀ i, |v i - w i| < TOLERANCE := by
  rw [← vecEq_true_iff, Bool.eq_false_iff, Ne]

lemma vecLt_true_iff {n : ℕ} (v w : Vector ℚ n) :
    vecLt v w = true ↔ ∀ i, v i < w i := by
  simp [vecLt, List.all_eq_true, List.mem_finRange]

lemma vecGt_true_iff {n : ℕ} (v w : Vector ℚ n) :
    vecGt v w = true ↔ ∀ i, w i < v i := by
  simp [vecGt, List.all_eq_true, List.mem_finRange]

/- Concrete example vectors used by witnesses and counterexamples. -/

def exQ : Vector ℚ 3 := ![1, 2, 3]

def exLtA : Vector ℚ 2 := ![0, 1]

def exLtB : Vector ℚ 2 := ![1, 0]

def exT0 : Vector ℚ 2 := ![0, 0]

def exT1 : Vector ℚ 2 := ![8 / 10 ^ 8, 0]

def exT2 : Vector ℚ 2 := ![16 / 10 ^ 8, 0]

/-- C3: `operator==` returns true iff every coordinate pair differs by
strictly less than 1e-7 in absolute value, and `operator!=` is its logical
negation. -/
theorem vecEq_iff_tolerance {n : ℕ} (v w : Vector ℚ n) :
    (vecEq v w = true ↔ ∀ i, |v i - w i| < 1 / 10 ^ 7) ∧
    vecNe v w = !(vecEq v w) := by
  refine ⟨?_, rfl⟩
  rw [vecEq_true_iff]
  simp [TOLERANCE]

/-- C5: `(v + w) - w` is equal to `v` under the tolerance equality
`operator==` (in the exact-arithmetic model the difference is 0, which is
below the 1e-7 tolerance); all operations build fresh vectors, so the
operands are untouched. -/
theorem add_sub_cancel_tol {n : ℕ} (v w : Vector ℚ n) :
    vecEq (vecSub (vecAdd v w) w) v = true := by
  rw [vecEq_true_iff]
  intro i
  simp [vecSub, vecAdd, TOLERANCE]

/-- C6: `operator<` holds iff every coordinate of the left operand is
strictly below the corresponding coordinate of the right, `operator>` holds
iff every coordinate is strictly above; the concrete pair (0,1), (1,0) is
neither less-than nor greater-than nor equal. -/
theorem lt_gt_strict_all :
    (∀ (n : ℕ) (v w : Vector ℚ n),
      (vecLt v w = true ↔ ∀ i, v i < w i) ∧
      (vecGt v w = true ↔ ∀ i, w i < v i)) ∧
    (vecLt exLtA exLtB = false ∧ vecGt exLtA exLtB = false ∧
      vecEq exLtA exLtB = false) := by
  refine ⟨fun n v w => ⟨vecLt_true_iff v w, vecGt_true_iff v w⟩, ?_, ?_, ?_⟩
  · rw [Bool.eq_false_iff, Ne, vecLt_true_iff]
    intro h
    have := h 1
    norm_num [exLtA, exLtB] at this
  · rw [Bool.eq_false_iff, Ne, vecGt_true_iff]
    intro h
    have := h 0
    norm_num [exLtA, exLtB] at this
  · rw [vecEq_false_iff]
    intro h
    have := h 0
    norm_num [exLtA, exLtB, TOLERANCE] at this

/-- C9: the tolerance equality is reflexive and symmetric but not
transitive: (0,0) == (8e-8,0) and (8e-8,0) == (16e-8,0) but
(0,0) == (16e-8,0) fails. -/
theorem vecEq_refl_symm_not_trans :
    (∀ (n : ℕ) (v : Vector ℚ n), vecEq v v = true) ∧
    (∀ (n : ℕ) (v w : Vector ℚ n), vecEq v w = vecEq w v) ∧
    vecEq exT0 exT1 = true ∧ vecEq exT1 exT2 = true ∧
    vecEq exT0 exT2 = false := by
  refine ⟨?_, ?_, ?_, ?_, ?_⟩
  · intro n v
    rw [vecEq_true_iff]
    intro i
    norm_num [TOLERANCE]
  · intro n v w
    have h : (fun i => IsEqualD (v i) (w i)) = fun i => IsEqualD (w i) (v i) := by
      funext i
      simp [IsEqualD, abs_sub_comm]
    simp only [vecEq, h]
  · rw [vecEq_true_iff]
    intro i
    fin_cases i <;> norm_num [exT0, exT1, TOLERANCE, abs_lt]
  · rw [vecEq_true_iff]
    intro i
    fin_cases i <;> norm_num [exT1, exT2, TOLERANCE, abs_lt]
  · rw [vecEq_false_iff]
    intro h
    have := h 0
    norm_num [exT0, exT2, TOLERANCE, abs_lt] at this

/-- C1: `operator[]` throws out-of-range exactly when the index is at or
beyond the dimension, otherwise returns the i-th coordinate; a negative
index reaching the `size_t` parameter converts to a value at or beyond the
dimension and also throws. No value is ever returned (no clamping) on an
out-of-range index. -/
theorem get_bounds_spec {T : Type} {n : ℕ} (v : Vector T n) :
    (∀ i : ℕ, n ≤ i → get v i = none) ∧
    (∀ (i : ℕ) (h : i < n), get v i = some (v ⟨i, h⟩)) ∧
    (∀ j : ℤ, j < 0 → -(2 ^ 63) ≤ j → n ≤ 2 ^ 63 →
      get v (size_tOfInt j) = none) := by
  refine ⟨?_, ?_, ?_⟩
  · intro i hi
    simp [get, hi]
  · intro i h
    simp [get, Nat.not_le.mpr h]
  · intro j hj hjl hn
    have hge : n ≤ size_tOfInt j := by
      simp only [size_tOfInt]
      omega
    simp [get, hge]

theorem get_bounds_spec_witness :
    get exQ 5 = none ∧ get exQ 1 = some 2 ∧
    get exQ (size_tOfInt (-1)) = none := by
  refine ⟨(get_bounds_spec exQ).1 5 (by norm_num), ?_,
    (get_bounds_spec exQ).2.2 (-1) (by norm_num) (by norm_num) (by norm_num)⟩
  have h := (get_bounds_spec exQ).2.1 1 (by norm_num)
  rw [h]
  norm_num [exQ]

/-- C2: `assign` throws out-of-range exactly when the `int` index is
negative (after conversion to `size_t` it lands at or beyond the dimension)
or at/beyond the dimension, and then leaves the vector untouched (the throw
precedes the write); otherwise it overwrites coordinate `dim` with the new
value and leaves every other coordinate unchanged. -/
theorem assign_bounds_spec {T : Type} {n : ℕ} (v : Vector T n) (dim : ℤ)
    (x : T) (h1 : -(2 ^ 31) ≤ dim) (h2 : dim < 2 ^ 31) (hn : n ≤ 2 ^ 62) :
    (dim < 0 ∨ (n : ℤ) ≤ dim → assign v dim x = none) ∧
    (0 ≤ dim → dim < (n : ℤ) →
      assign v dim x =
        some (fun j : Fin n => if (j : ℕ) = dim.toNat then x else v j)) := by
  constructor
  · rintro (hneg | hge)
    · have hle : n ≤ size_tOfInt dim := by
        simp only [size_tOfInt]
        omega
      simp [assign, hle]
    · have hle : n ≤ size_tOfInt dim := by
        simp only [size_tOfInt]
        omega
      simp [assign, hle]
  · intro h0 hlt
    have hs : size_tOfInt dim = dim.toNat := by
      simp only [size_tOfInt]
      omega
    have hnle : ¬ n ≤ size_tOfInt dim := by
      rw [hs]
      omega
    simp [assign, hnle, hs]
    omega

theorem assign_bounds_spec_witness :
    assign exQ (-1) 9 = none ∧ assign exQ 3 9 = none ∧
    assign exQ 1 9 = some (fun j : Fin 3 => if (j : ℕ) = 1 then 9 else exQ j) := by
  have Hm := assign_bounds_spec exQ (-1) (9 : ℚ) (by norm_num) (by norm_num)
    (by norm_num)
  have H3 := assign_bounds_spec exQ 3 (9 : ℚ) (by norm_num) (by norm_num)
    (by norm_num)
  have H1 := assign_bounds_spec exQ 1 (9 : ℚ) (by norm_num) (by norm_num)
    (by norm_num)
  refine ⟨Hm.1 (Or.inl (by norm_num)), H3.1 (Or.inr (by norm_num)), ?_⟩
  have h := H1.2 (by norm_num) (by norm_num)
  simpa using h

/-- C7: `crossProduct3D(v, w)` is the component-wise negation of
`crossProduct3D(w, v)` (anti-commutativity), exactly. -/
theorem cross3_anticomm (v w : Vector ℚ 3) :
    ∀ i, crossProduct3D v w i = -(crossProduct3D w v i) := by
  intro i
  fin_cases i <;> simp [crossProduct3D] <;> ring

/-- C8: `scalarTripleProduct(v, v, w)` — `dotProduct(crossProduct3D(v, v),
w)` — is approximately 0 under the code's own tolerance predicate (in the
exact model it is exactly 0). -/
theorem triple_repeated_zero (v w : Vector ℚ 3) :
    IsEqualD (scalarTripleProduct v v w) 0 = true := by
  have h : scalarTripleProduct v v w = 0 := by
    rw [scalarTripleProduct, dotProduct_eq, Fin.sum_univ_three]
    simp [crossProduct3D]
    ring
  rw [h]
  simp [IsEqualD, TOLERANCE]

/-- C10: for 32-bit integer coordinates the tolerance equality coincides
with exact coordinate-wise equality: distinct integers differ by at least 1
(exactly representable in double), which is never below the 1e-7 tolerance. -/
theorem int_eq_iff_exact {n : ℕ} (v w : Vector ℤ n)
    (hv : ∀ i, -(2 ^ 31) ≤ v i ∧ v i < 2 ^ 31)
    (hw : ∀ i, -(2 ^ 31) ≤ w i ∧ w i < 2 ^ 31) :
    vecEqInt v w = true ↔ v = w := by
  constructor
  · intro h
    funext i
    by_contra hne
    have hall : ∀ i : Fin n, |((v i : ℚ)) - ((w i : ℚ))| < TOLERANCE := by
      simpa [vecEqInt, List.all_eq_true, IsEqualD, List.mem_finRange] using h
    have hz : v i - w i ≠ 0 := sub_ne_zero.mpr hne
    have hone : (1 : ℤ) ≤ |v i - w i| := Int.one_le_abs hz
    have hcast : (1 : ℚ) ≤ |((v i : ℚ)) - ((w i : ℚ))| := by
      exact_mod_cast hone
    have hlt := hall i
    have ht : TOLERANCE < 1 := by norm_num [TOLERANCE]
    linarith
  · rintro rfl
    simp [vecEqInt, List.all_eq_true, IsEqualD, TOLERANCE]

def exI : Vector ℤ 2 := ![5, -7]

theorem int_eq_iff_exact_witness : vecEqInt exI exI = true :=
  (int_eq_iff_exact exI exI (by decide) (by decide)).mpr rfl

/-- C4 (amended): for real-valued (float) coordinates, `normalize` divides
every coordinate by the current magnitude, and the magnitude of the result
is approximately 1 whenever the original magnitude is nonzero (in the exact
model it is exactly 1). -/
theorem normalize_unit_magnitude {n : ℕ} (v : Vector ℝ n)
    (h : magnitude v ≠ 0) :
    (∀ i, normalize v i = v i / magnitude v) ∧
    |magnitude (normalize v) - 1| < ((TOLERANCE : ℚ) : ℝ) := by
  refine ⟨fun i => rfl, ?_⟩
  have hS : (0 : ℝ) ≤ ∑ i, v i * v i :=
    Finset.sum_nonneg fun i _ => mul_self_nonneg _
  have hm2 : magnitude v * magnitude v = ∑ i, v i * v i := by
    rw [magnitude_eq]
    exact Real.mul_self_sqrt hS
  have hsum : ∑ i, normalize v i * normalize v i = 1 := by
    have hpt : ∀ i : Fin n, normalize v i * normalize v i =
        (v i * v i) / (magnitude v * magnitude v) := by
      intro i
      rw [normalize, div_mul_div_comm]
    rw [Finset.sum_congr rfl fun i _ => hpt i, ← Finset.sum_div, ← hm2,
      div_self (mul_ne_zero h h)]
  have hend : magnitude (normalize v) = 1 := by
    rw [magnitude_eq, hsum, Real.sqrt_one]
  rw [hend]
  norm_num [TOLERANCE]

def exR : Vector ℝ 2 := ![3, 4]

theorem normalize_unit_magnitude_witness :
    magnitude exR ≠ 0 ∧
    |magnitude (normalize exR) - 1| < ((TOLERANCE : ℚ) : ℝ) := by
  have h : magnitude exR ≠ 0 := by
    rw [magnitude_eq, Fin.sum_univ_two]
    norm_num [exR]
  exact ⟨h, (normalize_unit_magnitude exR h).2⟩

def exIOne : Vector ℤ 2 := ![1, 1]

/-- C4 (counterexample): the claim fails for integer coordinate types. The
vector `Vector<int, 2>(1, 1)` has nonzero magnitude `sqrt 2`, yet the
compound assignment `coords[i] /= mag` truncates `1 / sqrt 2` to 0, so
normalizing yields the zero vector, whose magnitude 0 is not approximately
1. -/
theorem int_normalize_not_unit :
    magnitude (intCast exIOne) ≠ 0 ∧
    intNormalize exIOne = (fun _ => 0) ∧
    ¬ |magnitude (intCast (intNormalize exIOne)) - 1| <
      ((TOLERANCE : ℚ) : ℝ) := by
  have hmag : magnitude (intCast exIOne) = Real.sqrt 2 := by
    rw [magnitude_eq, Fin.sum_univ_two]
    norm_num [intCast, exIOne]
  have hpos : (0 : ℝ) < Real.sqrt 2 := Real.sqrt_pos.mpr (by norm_num)
  have h2 : (1 : ℝ) < Real.sqrt 2 := by
    rw [show (1 : ℝ) = Real.sqrt 1 from Real.sqrt_one.symm]
    exact Real.sqrt_lt_sqrt (by norm_num) (by norm_num)
  have hq0 : (0 : ℝ) ≤ 1 / Real.sqrt 2 := by positivity
  have hq1 : 1 / Real.sqrt 2 < 1 := by
    rw [div_lt_one hpos]
    exact h2
  have hnorm : intNormalize exIOne = fun _ => 0 := by
    funext i
    have hco : ((exIOne i : ℝ)) = 1 := by
      fin_cases i <;> norm_num [exIOne]
    rw [intNormalize, hmag, hco, truncFloat, if_pos hq0]
    exact Int.floor_eq_zero_iff.mpr ⟨hq0, hq1⟩
  refine ⟨by rw [hmag]; positivity, hnorm, ?_⟩
  rw [hnorm]
  have hz : magnitude (intCast fun _ : Fin 2 => (0 : ℤ)) = 0 := by
    rw [magnitude_eq, Fin.sum_univ_two]
    norm_num [intCast]
  rw [hz]
  norm_num [TOLERANCE, abs_lt]

end scaleGeom
